import Mathlib

/-!
Verification of the fittrack-api Goal Progress & Achievement Engine.

Shallow embedding of:
 * the goal data model and `GoalRepository` (src/api/v1/repositories/goalRepository.ts),
 * `GoalService` goal operations (src/api/v1/services/workoutService.ts),
 * `ProgressRepository.upsertPersonalRecord` (src/api/v1/repositories/progressRepository.ts),
 * the three background jobs and `JobScheduler` (src/jobs/*.ts).

JavaScript numbers are modelled as rationals; the one place where the source
can perform arithmetic on `undefined` (the weight/body-fat branch of
`GoalService.updateGoalProgress`) is modelled with an explicit NaN-carrying
type `JVal`, with the JS propagation rules for the operators the source uses.
Wall-clock instants are integers (epoch milliseconds).
-/

namespace FitTrack

/-- A JavaScript number that may be NaN.  Only the operations appearing in
the embedded source are defined, each with JS NaN-propagation semantics. -/
inductive JVal where
  | num (q : ℚ)
  | nan
deriving DecidableEq, Repr

/-- Coerce an optional number the way JS arithmetic treats `undefined`:
an absent value behaves as NaN once an arithmetic operator touches it. -/
def toJVal : Option ℚ → JVal
  | some q => .num q
  | none => .nan

/-- JS subtraction: NaN propagates. -/
def JVal.sub : JVal → JVal → JVal
  | .num a, .num b => .num (a - b)
  | _, _ => .nan

/-- JS division as used under the source's `totalChange !== 0` guard:
NaN propagates; division by an exact zero never occurs on the guarded path. -/
def JVal.div : JVal → JVal → JVal
  | .num a, .num b => if b = 0 then .nan else .num (a / b)
  | _, _ => .nan

/-- Multiplication by 100, NaN-propagating. -/
def JVal.mul100 : JVal → JVal
  | .num a => .num (a * 100)
  | .nan => .nan

/-- JS `Math.max(c, x)`: NaN in, NaN out. -/
def JVal.maxC (c : ℚ) : JVal → JVal
  | .num a => .num (max c a)
  | .nan => .nan

/-- JS `Math.min(c, x)`: NaN in, NaN out. -/
def JVal.minC (c : ℚ) : JVal → JVal
  | .num a => .num (min c a)
  | .nan => .nan

/-- The JS test `x !== 0`, which is true for NaN. -/
def JVal.neZero : JVal → Bool
  | .num a => decide (a ≠ 0)
  | .nan => true

/-- Goal type tag (models/goal.ts `GoalType`). -/
inductive GoalType where
  | weight
  | body_fat
  | strength
  | workout_frequency
  | custom
deriving DecidableEq, Repr

/-- Goal lifecycle status (models/goal.ts `GoalStatus`). -/
inductive GoalStatus where
  | active
  | completed
  | abandoned
  | expired
deriving DecidableEq, Repr

/-- Target of a strength goal (models/goal.ts `StrengthGoalTarget`). -/
structure StrengthGoalTarget where
  exerciseId : String
  exerciseName : String
  targetWeight : ℚ
  targetReps : ℚ
deriving DecidableEq, Repr

/-- Target of a workout-frequency goal (models/goal.ts `WorkoutFrequencyTarget`). -/
structure FrequencyTarget where
  workoutsPerWeek : Option ℚ
  workoutsPerMonth : Option ℚ
deriving DecidableEq, Repr

/-- A goal document (models/goal.ts `Goal`).  `currentProgress` is stored as a
`JVal` because the service path can store a NaN progress value. -/
structure Goal where
  id : String
  userId : String
  type : GoalType
  title : String
  description : Option String
  targetWeight : Option ℚ
  targetBodyFat : Option ℚ
  strengthTarget : Option StrengthGoalTarget
  frequencyTarget : Option FrequencyTarget
  customTarget : Option String
  startValue : Option ℚ
  currentValue : Option ℚ
  currentProgress : Option JVal
  startDate : ℤ
  deadline : ℤ
  completedAt : Option ℤ
  status : GoalStatus
  createdAt : ℤ
  updatedAt : ℤ
deriving DecidableEq, Repr

/-- A body-metric sample (models/progress.ts `BodyMetrics`, fields this core reads). -/
structure BodyMetrics where
  id : String
  userId : String
  date : ℤ
  weight : Option ℚ
  bodyFat : Option ℚ
deriving DecidableEq, Repr

/-- A stored personal-record document (models/progress.ts `PersonalRecord`). -/
structure PersonalRecord where
  id : String
  userId : String
  exerciseId : String
  exerciseName : Option String
  weight : ℚ
  reps : ℚ
  achievedAt : ℤ
  workoutProgressId : Option String
  createdAt : ℤ
  updatedAt : ℤ
deriving DecidableEq, Repr

/-- A workout completion record (models/progress.ts `WorkoutProgress`,
fields this core reads). -/
structure WorkoutProgress where
  id : String
  userId : String
  completedAt : ℤ
deriving DecidableEq, Repr

/-- Embeds `ProgressRepository.findWorkoutProgressByUser(userId, startDate, endDate)`:
the user's completions whose `completedAt` lies in the inclusive window. -/
def findWorkoutProgressByUser (ws : List WorkoutProgress) (userId : String)
    (startDate endDate : ℤ) : List WorkoutProgress :=
  ws.filter (fun w =>
    w.userId == userId && decide (startDate ≤ w.completedAt) &&
      decide (w.completedAt ≤ endDate))

/-- Patch written by `GoalRepository.updateProgress`; a `none` field is absent
from the patch and leaves the stored field unchanged. -/
structure GoalProgressUpdate where
  currentValue : Option ℚ
  currentProgress : Option JVal
deriving DecidableEq, Repr

/-- Patch accepted by `GoalRepository.update` (models/goal.ts `UpdateGoalDto`);
a `none` field is absent from the patch. -/
structure UpdateGoalDto where
  title : Option String
  description : Option String
  targetWeight : Option ℚ
  targetBodyFat : Option ℚ
  strengthTarget : Option StrengthGoalTarget
  frequencyTarget : Option FrequencyTarget
  customTarget : Option String
  deadline : Option ℤ
  status : Option GoalStatus
deriving DecidableEq, Repr

/-- The all-absent patch. -/
def emptyUpdate : UpdateGoalDto :=
  ⟨none, none, none, none, none, none, none, none, none⟩

/-- Payload of `GoalRepository.create` (models/goal.ts `CreateGoalDto`). -/
structure CreateGoalDto where
  type : GoalType
  title : String
  description : Option String
  targetWeight : Option ℚ
  targetBodyFat : Option ℚ
  strengthTarget : Option StrengthGoalTarget
  frequencyTarget : Option FrequencyTarget
  customTarget : Option String
  startValue : Option ℚ
  deadline : ℤ
deriving DecidableEq, Repr

/-- Effect of `GoalRepository.update` on one goal document: merge the present
patch fields, stamp `updatedAt`, and set `completedAt` exactly when the patch
moves the status to `completed` and the stored status is not yet `completed`. -/
def applyUpdate (g : Goal) (u : UpdateGoalDto) (now : ℤ) : Goal :=
  { g with
    title := u.title.getD g.title
    description := match u.description with | some d => some d | none => g.description
    targetWeight := match u.targetWeight with | some t => some t | none => g.targetWeight
    targetBodyFat := match u.targetBodyFat with | some t => some t | none => g.targetBodyFat
    strengthTarget := match u.strengthTarget with | some t => some t | none => g.strengthTarget
    frequencyTarget := match u.frequencyTarget with | some t => some t | none => g.frequencyTarget
    customTarget := match u.customTarget with | some t => some t | none => g.customTarget
    deadline := u.deadline.getD g.deadline
    completedAt :=
      if u.status = some .completed ∧ g.status ≠ .completed then some now else g.completedAt
    status := u.status.getD g.status
    updatedAt := now }

/-- Effect of `GoalRepository.updateProgress` on one goal document:
only the present fields of the patch are written, plus `updatedAt`. -/
def applyProgressUpdate (g : Goal) (u : GoalProgressUpdate) (now : ℤ) : Goal :=
  { g with
    currentValue := match u.currentValue with | some v => some v | none => g.currentValue
    currentProgress := match u.currentProgress with | some p => some p | none => g.currentProgress
    updatedAt := now }

/-- The goal collection is a list of documents; lookup by id. -/
def findGoal (s : List Goal) (goalId : String) : Option Goal :=
  s.find? (fun g => g.id == goalId)

/-- Embeds `GoalRepository.update` over the collection; `none` models `NotFoundError`. -/
def updateGoalStore (s : List Goal) (goalId : String) (u : UpdateGoalDto) (now : ℤ) :
    Option (List Goal) :=
  match findGoal s goalId with
  | none => none
  | some _ => some (s.map (fun g => if g.id == goalId then applyUpdate g u now else g))

/-- Embeds `GoalRepository.updateProgress` over the collection. -/
def updateProgressStore (s : List Goal) (goalId : String) (u : GoalProgressUpdate) (now : ℤ) :
    Option (List Goal) :=
  match findGoal s goalId with
  | none => none
  | some _ => some (s.map (fun g => if g.id == goalId then applyProgressUpdate g u now else g))

/-- Embeds `GoalRepository.create`: a fresh active goal with `currentValue = startValue`,
`currentProgress = 0` and no `completedAt`. -/
def createGoal (s : List Goal) (freshId userId : String) (d : CreateGoalDto) (now : ℤ) :
    List Goal :=
  s ++ [{ id := freshId, userId := userId, type := d.type, title := d.title
          description := d.description, targetWeight := d.targetWeight
          targetBodyFat := d.targetBodyFat, strengthTarget := d.strengthTarget
          frequencyTarget := d.frequencyTarget, customTarget := d.customTarget
          startValue := d.startValue, currentValue := d.startValue
          currentProgress := some (.num 0), startDate := now, deadline := d.deadline
          completedAt := none, status := .active, createdAt := now, updatedAt := now }]

/-- Embeds `GoalRepository.delete` over the collection. -/
def deleteGoal (s : List Goal) (goalId : String) : List Goal :=
  s.filter (fun g => g.id != goalId)

/-- Embeds `GoalRepository.findAllActiveGoals`. -/
def findAllActiveGoals (s : List Goal) : List Goal :=
  s.filter (fun g => g.status == .active)

/-- Errors surfaced by the goal service layer. -/
inductive SvcError where
  | notFound
  | authorization
deriving DecidableEq, Repr

/-- Embeds `GoalService.completeGoal`: owner check, then an unconditional
status patch to `completed` (no check of the current status). -/
def completeGoal (s : List Goal) (goalId userId : String) (now : ℤ) :
    Except SvcError (List Goal) :=
  match findGoal s goalId with
  | none => .error .notFound
  | some g =>
    if g.userId ≠ userId then .error .authorization
    else
      match updateGoalStore s goalId { emptyUpdate with status := some .completed } now with
      | some s2 => .ok s2
      | none => .error .notFound

/-- Embeds `GoalService.abandonGoal`: owner check, then an unconditional
status patch to `abandoned`. -/
def abandonGoal (s : List Goal) (goalId userId : String) (now : ℤ) :
    Except SvcError (List Goal) :=
  match findGoal s goalId with
  | none => .error .notFound
  | some g =>
    if g.userId ≠ userId then .error .authorization
    else
      match updateGoalStore s goalId { emptyUpdate with status := some .abandoned } now with
      | some s2 => .ok s2
      | none => .error .notFound

/-! ### Progress calculation, weight / body_fat -/

/-- Embeds `UpdateGoalProgressJob.updateWeightOrBodyFatGoal` (jobs/updateGoalProgressJob.ts):
take the most recent sample, require `startValue` and the type-matching target,
and write `{currentValue, currentProgress}` only when `target - startValue ≠ 0`,
with `currentProgress = min(100, max(0, (currentChange / totalChange) * 100))`.
Returns the patch written, or `none` when the job writes nothing. -/
def updateWeightOrBodyFatGoal (goal : Goal) (metrics : List BodyMetrics) :
    Option GoalProgressUpdate :=
  match metrics with
  | [] => none
  | latest :: _ =>
    let currentValue := if goal.type = .weight then latest.weight else latest.bodyFat
    match currentValue, goal.startValue with
    | some cv, some sv =>
      let target := if goal.type = .weight then goal.targetWeight else goal.targetBodyFat
      match target with
      | some t =>
        let totalChange := t - sv
        let currentChange := cv - sv
        if totalChange ≠ 0 then
          some ⟨some cv, some (.num (min 100 (max 0 (currentChange / totalChange * 100))))⟩
        else none
      | none => none
    | _, _ => none

/-- Weight / body_fat branch of `GoalService.updateGoalProgress`
(services/workoutService.ts).  The source guards on
`targetWeight !== undefined || targetBodyFat !== undefined` — presence of
EITHER target — and then dereferences the type-matching one with a non-null
assertion, so a goal carrying only the mismatched target reaches the JS
arithmetic with `undefined`, producing NaN.  Returns the
`(currentValue, currentProgress)` pair the service will consider persisting. -/
def serviceWeightBodyFat (goal : Goal) (metrics : List BodyMetrics) :
    Option ℚ × Option JVal :=
  match metrics with
  | [] => (none, none)
  | latest :: _ =>
    let currentValue := if goal.type = .weight then latest.weight else latest.bodyFat
    if currentValue.isSome ∧ goal.startValue.isSome ∧
        (goal.targetWeight.isSome ∨ goal.targetBodyFat.isSome) then
      let target := if goal.type = .weight then goal.targetWeight else goal.targetBodyFat
      let totalChange := JVal.sub (toJVal target) (toJVal goal.startValue)
      let currentChange := JVal.sub (toJVal currentValue) (toJVal goal.startValue)
      if totalChange.neZero then
        (currentValue, some (((currentChange.div totalChange).mul100.maxC 0).minC 100))
      else (currentValue, none)
    else (currentValue, none)

/-! ### Progress calculation, strength -/

/-- Outcome of a strength-goal refresh: whether the goal is transitioned to
`completed`, and the progress value written (if any). -/
structure StrengthResult where
  setCompleted : Bool
  currentProgress : Option ℚ
deriving DecidableEq, Repr

/-- Embeds `ProgressRepository.findPersonalRecordsByUser` followed by the source's
`prs.find(pr => pr.exerciseId === exerciseId)`. -/
def findPR (prs : List PersonalRecord) (exerciseId : String) : Option PersonalRecord :=
  prs.find? (fun pr => pr.exerciseId == exerciseId)

/-- Strength branch of `GoalService.updateGoalProgress`: when the record meets
both target weight and target reps, set progress 100 AND transition the goal to
`completed`; otherwise progress is `min(100, weight / targetWeight * 100)`
(no lower clamp in the source). -/
def serviceStrength (goal : Goal) (prs : List PersonalRecord) : StrengthResult :=
  match goal.strengthTarget with
  | none => ⟨false, none⟩
  | some st =>
    match findPR prs st.exerciseId with
    | none => ⟨false, none⟩
    | some pr =>
      if st.targetWeight ≤ pr.weight ∧ st.targetReps ≤ pr.reps then
        ⟨true, some 100⟩
      else
        ⟨false, some (min 100 (pr.weight / st.targetWeight * 100))⟩

/-- Embeds `UpdateGoalProgressJob.updateStrengthGoal`: same completion test, but on
completion the job only patches the status — it does NOT write a progress
value; otherwise it writes `min(100, weight / targetWeight * 100)`. -/
def jobStrength (goal : Goal) (prs : List PersonalRecord) : StrengthResult :=
  match goal.strengthTarget with
  | none => ⟨false, none⟩
  | some st =>
    match findPR prs st.exerciseId with
    | none => ⟨false, none⟩
    | some pr =>
      if st.targetWeight ≤ pr.weight ∧ st.targetReps ≤ pr.reps then
        ⟨true, none⟩
      else
        ⟨false, some (min 100 (pr.weight / st.targetWeight * 100))⟩

/-! ### Progress calculation, workout_frequency -/

/-- Milliseconds in `n` days, as the source computes `n * 24 * 60 * 60 * 1000`. -/
def daysMs (n : ℤ) : ℤ := n * 24 * 60 * 60 * 1000

/-- Workout-frequency branch, identical in `GoalService.updateGoalProgress`
and `UpdateGoalProgressJob.updateFrequencyGoal`: a 7-day trailing window when
`workoutsPerWeek` is set, else a 30-day window when `workoutsPerMonth` is set;
progress is `min(100, (count / target) * 100)`.  Only a progress value is ever
produced — neither path touches the goal status. -/
def frequencyProgress (goal : Goal) (ws : List WorkoutProgress) (now : ℤ) : Option ℚ :=
  match goal.frequencyTarget with
  | none => none
  | some ft =>
    match ft.workoutsPerWeek with
    | some target =>
      let workouts := findWorkoutProgressByUser ws goal.userId (now - daysMs 7) now
      some (min 100 ((workouts.length : ℚ) / target * 100))
    | none =>
      match ft.workoutsPerMonth with
      | some target =>
        let workouts := findWorkoutProgressByUser ws goal.userId (now - daysMs 30) now
        some (min 100 ((workouts.length : ℚ) / target * 100))
      | none => none

/-! ### Personal-record upsert -/

/-- The source's supersession test
`weight > existing.weight || (weight === existing.weight && reps > existing.reps)`. -/
def shouldUpdatePR (existing : PersonalRecord) (weight reps : ℚ) : Bool :=
  decide (existing.weight < weight) ||
    (decide (weight = existing.weight) && decide (existing.reps < reps))

/-- The same test as a proposition, in the spec's words: weight dominates,
reps breaks ties at equal weight. -/
def Supersedes (existing : PersonalRecord) (weight reps : ℚ) : Prop :=
  existing.weight < weight ∨ (weight = existing.weight ∧ existing.reps < reps)

instance (ex : PersonalRecord) (w r : ℚ) : Decidable (Supersedes ex w r) := by
  unfold Supersedes; infer_instance

/-- Embeds `ProgressRepository.upsertPersonalRecord`, acting on the single stored
record for the (user, exercise) pair (`existing = none` when no record exists).
Returns the stored document after the call together with the value returned to
the caller.  On supersession the stored document receives only `weight`,
`reps`, `achievedAt`, `workoutProgressId` and `updatedAt`; the returned value
is rebuilt from the caller's arguments (including the caller's
`exerciseName`).  On a non-superseding candidate the stored document is
untouched and returned as-is.  With no existing record a fresh document is
created from the candidate. -/
def upsertPersonalRecord (existing : Option PersonalRecord)
    (userId exerciseId exerciseName : String) (weight reps : ℚ)
    (workoutProgressId : Option String) (now : ℤ) (freshId : String) :
    PersonalRecord × PersonalRecord :=
  match existing with
  | some ex =>
    if shouldUpdatePR ex weight reps then
      let stored :=
        { ex with
          weight := weight, reps := reps, achievedAt := now,
          workoutProgressId := workoutProgressId, updatedAt := now }
      (stored,
       { id := ex.id, userId := userId, exerciseId := exerciseId
         exerciseName := some exerciseName, weight := weight, reps := reps
         achievedAt := now, workoutProgressId := workoutProgressId
         createdAt := ex.createdAt, updatedAt := now })
    else
      (ex, ex)
  | none =>
    let doc : PersonalRecord :=
      { id := freshId, userId := userId, exerciseId := exerciseId
        exerciseName := some exerciseName, weight := weight, reps := reps
        achievedAt := now, workoutProgressId := workoutProgressId
        createdAt := now, updatedAt := now }
    (doc, doc)

/-! ### Background jobs over an explicit world state

Store queries that the jobs consume are modelled by the repository contracts
the code calls: `bodyMetricsByUser` and `prsByUser` return the query result
(most-recent-first where the contract says so), workouts are filtered by the
pure window query above.  Failure injection: `failingGoalUpdate` marks goal
ids whose store update rejects, `loadFails` makes a job's top-level bulk load
reject.  The audit-log append is total.  `JobResult` wall-clock fields
(`startTime`, `endTime`, `duration`) are omitted; the claims do not mention
them. -/

/-- Job execution status (models/job.ts `JobStatus`). -/
inductive JobStatus where
  | success
  | failure
  | running
deriving DecidableEq, Repr

/-- A job execution result (models/job.ts `JobResult`, timing fields omitted). -/
structure JobResultRec where
  jobName : String
  status : JobStatus
  itemsProcessed : ℕ
  message : String
  error : Option String
deriving DecidableEq, Repr

/-- An entry of the Job Audit Log (models/job.ts `JobLog`, reduced likewise). -/
structure JobLogEntry where
  result : JobResultRec
  createdAt : ℤ
deriving DecidableEq, Repr

/-- The world the jobs act on. -/
structure World where
  goals : List Goal
  bodyMetricsByUser : String → List BodyMetrics
  prsByUser : String → List PersonalRecord
  workouts : List WorkoutProgress
  jobLogs : List JobLogEntry
  now : ℤ
  failingGoalUpdate : String → Bool
  loadFails : Bool

/-- Loop body of `ExpireGoalsJob.execute`: walk the active goals, patch each
past-deadline one to `expired`.  There is no per-goal try/catch in the source,
so a rejecting update aborts the walk; updates already applied stay applied.
Returns (store, expiredCount, aborted). -/
def expireLoop (now : ℤ) (failing : String → Bool) :
    List Goal → List Goal → ℕ → List Goal × ℕ × Bool
  | [], store, count => (store, count, false)
  | g :: rest, store, count =>
    if g.deadline < now then
      if failing g.id then (store, count, true)
      else
        match updateGoalStore store g.id { emptyUpdate with status := some .expired } now with
        | some store2 => expireLoop now failing rest store2 (count + 1)
        | none => (store, count, true)
    else expireLoop now failing rest store count

/-- Embeds `ExpireGoalsJob.execute`: load all active goals, run the sweep; any
escape (bulk load or a goal update) lands in the top-level catch, which
reports `failure` with `itemsProcessed = 0`. -/
def expireGoalsExecute (w : World) : World × JobResultRec :=
  if w.loadFails then
    (w, ⟨"expire-goals", .failure, 0, "Job failed", some "load failed"⟩)
  else
    let out := expireLoop w.now w.failingGoalUpdate (findAllActiveGoals w.goals) w.goals 0
    if out.2.2 then
      ({ w with goals := out.1 },
       ⟨"expire-goals", .failure, 0, "Job failed", some "update failed"⟩)
    else
      ({ w with goals := out.1 },
       ⟨"expire-goals", .success, out.2.1,
        "Successfully expired " ++ toString out.2.1 ++ " goals", none⟩)

/-- Per-goal unit of work of `UpdateGoalProgressJob`, dispatched on the goal
type; returns the goal store after the writes the branch performs. -/
def progressGoalAction (w : World) (g : Goal) : List Goal :=
  match g.type with
  | .weight | .body_fat =>
    match updateWeightOrBodyFatGoal g (w.bodyMetricsByUser g.userId) with
    | some u => (updateProgressStore w.goals g.id u w.now).getD w.goals
    | none => w.goals
  | .strength =>
    let r := jobStrength g (w.prsByUser g.userId)
    if r.setCompleted then
      (updateGoalStore w.goals g.id { emptyUpdate with status := some .completed } w.now).getD
        w.goals
    else
      match r.currentProgress with
      | some p => (updateProgressStore w.goals g.id ⟨none, some (.num p)⟩ w.now).getD w.goals
      | none => w.goals
  | .workout_frequency =>
    match frequencyProgress g w.workouts w.now with
    | some p => (updateProgressStore w.goals g.id ⟨none, some (.num p)⟩ w.now).getD w.goals
    | none => w.goals
  | .custom => w.goals

/-- Loop of `UpdateGoalProgressJob.execute`: a per-goal exception (modelled by
the failure oracle) is caught and skipped; `updatedCount` increments for every
non-custom goal whose unit of work returns, even when it wrote nothing. -/
def progressLoop (failing : String → Bool) :
    List Goal → World → ℕ → World × ℕ
  | [], w, count => (w, count)
  | g :: rest, w, count =>
    if failing g.id then progressLoop failing rest w count
    else
      match g.type with
      | .custom => progressLoop failing rest w count
      | _ => progressLoop failing rest { w with goals := progressGoalAction w g } (count + 1)

/-- Embeds `UpdateGoalProgressJob.execute`. -/
def updateGoalProgressExecute (w : World) : World × JobResultRec :=
  if w.loadFails then
    (w, ⟨"update-goal-progress", .failure, 0, "Job failed", some "load failed"⟩)
  else
    let out := progressLoop w.failingGoalUpdate (findAllActiveGoals w.goals) w 0
    (out.1,
     ⟨"update-goal-progress", .success, out.2,
      "Successfully updated progress for " ++ toString out.2 ++ " goals", none⟩)

/-- Embeds `CleanupOldLogsJob.execute`: delete audit entries older than 90 days. -/
def cleanupOldLogsExecute (w : World) : World × JobResultRec :=
  if w.loadFails then
    (w, ⟨"cleanup-old-logs", .failure, 0, "Job failed", some "load failed"⟩)
  else
    let cutoff := w.now - daysMs 90
    let deleted := w.jobLogs.filter (fun l => decide (l.createdAt < cutoff))
    let kept := w.jobLogs.filter (fun l => decide (¬ l.createdAt < cutoff))
    ({ w with jobLogs := kept },
     ⟨"cleanup-old-logs", .success, deleted.length,
      "Successfully deleted " ++ toString deleted.length ++ " old logs", none⟩)

/-- The `switch` of `JobScheduler.executeJob`: run the named job's unit of
work, or build the unknown-name failure result without touching the world. -/
def jobDispatch (w : World) (name : String) : World × JobResultRec :=
  if name = "expire-goals" then expireGoalsExecute w
  else if name = "update-goal-progress" then updateGoalProgressExecute w
  else if name = "cleanup-old-logs" then cleanupOldLogsExecute w
  else (w, ⟨name, .failure, 0, "Unknown job: " ++ name, some "Job not found"⟩)

/-- Embeds `JobScheduler.executeJob`: dispatch, then append exactly one entry to the
Job Audit Log.  Total: every name yields a `JobResultRec`. -/
def executeJob (w : World) (name : String) : World × JobResultRec :=
  let out := jobDispatch w name
  ({ out.1 with jobLogs := out.1.jobLogs ++ [⟨out.2, w.now⟩] }, out.2)

/-! ### Scheduler trigger bookkeeping -/

/-- A job definition (models/job.ts `JobConfig`, static part). -/
structure JobConfig where
  name : String
  schedule : String
  enabled : Bool
  description : String
deriving DecidableEq, Repr

/-- The fixed definitions built in the `JobScheduler` constructor. -/
def jobConfigs : List JobConfig :=
  [⟨"expire-goals", "0 0 * * *", true, "Check and expire outdated goals"⟩,
   ⟨"update-goal-progress", "0 */6 * * *", true, "Update progress for all active goals"⟩,
   ⟨"cleanup-old-logs", "0 2 * * 0", true, "Clean up job logs older than 90 days"⟩]

/-- Scheduler bookkeeping state: `scheduledJobs` is the name → task map; a
cron task created by `cron.schedule` starts immediately and keeps firing until
`stop()` is called on it, so `runningTasks` records every created-and-not-yet-
stopped task (id, job name) — including tasks the map no longer points to. -/
structure SchedulerState where
  nextTaskId : ℕ
  runningTasks : List (ℕ × String)
  scheduledJobs : List (String × ℕ)
deriving DecidableEq, Repr

/-- Fresh scheduler (constructor). -/
def schedInit : SchedulerState := ⟨0, [], []⟩

/-- Embeds `Map.get`. -/
def mapLookup (m : List (String × ℕ)) (k : String) : Option ℕ :=
  (m.find? (fun p => p.1 == k)).map (fun p => p.2)

/-- Embeds `Map.set`: overwrite in place, or append. -/
def mapSet (m : List (String × ℕ)) (k : String) (v : ℕ) : List (String × ℕ) :=
  match m with
  | [] => [(k, v)]
  | p :: rest => if p.1 == k then (k, v) :: rest else p :: mapSet rest k v

/-- Embeds `Map.delete`. -/
def mapDelete (m : List (String × ℕ)) (k : String) : List (String × ℕ) :=
  m.filter (fun p => p.1 != k)

/-- Embeds `JobScheduler.scheduleJob`: create a cron task (it starts at once) and
`Map.set` it — overwriting any previous entry WITHOUT stopping that task. -/
def scheduleJob (s : SchedulerState) (c : JobConfig) : SchedulerState :=
  { nextTaskId := s.nextTaskId + 1
    runningTasks := s.runningTasks ++ [(s.nextTaskId, c.name)]
    scheduledJobs := mapSet s.scheduledJobs c.name s.nextTaskId }

/-- Embeds `JobScheduler.startAll`: schedule every enabled definition, with no check
against already-scheduled names. -/
def startAll (s : SchedulerState) : SchedulerState :=
  jobConfigs.foldl (fun st c => if c.enabled then scheduleJob st c else st) s

/-- Embeds `JobScheduler.stopJob`: stop and forget the mapped task, else `false`. -/
def stopJob (s : SchedulerState) (name : String) : SchedulerState × Bool :=
  match mapLookup s.scheduledJobs name with
  | some id =>
    ({ s with
       runningTasks := s.runningTasks.filter (fun p => p.1 != id)
       scheduledJobs := mapDelete s.scheduledJobs name }, true)
  | none => (s, false)

/-- Embeds `JobScheduler.startJob`: schedule only a known, not-yet-mapped name. -/
def startJob (s : SchedulerState) (name : String) : SchedulerState × Bool :=
  match jobConfigs.find? (fun c => c.name == name) with
  | some c =>
    if (mapLookup s.scheduledJobs name).isSome then (s, false)
    else (scheduleJob s c, true)
  | none => (s, false)

/-- Embeds `JobScheduler.stopAll`: stop every mapped task and clear the map
(tasks the map no longer points to are not stopped). -/
def stopAll (s : SchedulerState) : SchedulerState :=
  { s with
    runningTasks :=
      s.runningTasks.filter (fun p => (mapLookup s.scheduledJobs p.2 != some p.1))
    scheduledJobs := [] }

/-- Number of live recurring triggers for one job name. -/
def liveTriggerCount (s : SchedulerState) (name : String) : ℕ :=
  (s.runningTasks.filter (fun p => p.2 == name)).length

/-- One scheduler control call (`startAll` is deliberately separate so the
map-only invariant over `startJob`/`stopJob` sequences can be stated). -/
inductive SchedOp where
  | startOne (name : String)
  | stopOne (name : String)
deriving DecidableEq, Repr

/-- Apply a sequence of `startJob`/`stopJob` calls. -/
def applySchedOps (s : SchedulerState) : List SchedOp → SchedulerState
  | [] => s
  | .startOne n :: rest => applySchedOps (startJob s n).1 rest
  | .stopOne n :: rest => applySchedOps (stopJob s n).1 rest

/-! ### Reachable goal stores -/

/-- The ids of a goal store. -/
def idsOf (s : List Goal) : List String := s.map Goal.id

/-- Goal stores reachable from the empty collection through the repository
operations (`create`, `update`, `updateProgress`, `delete`); the service-layer
goal operations are wrappers around these. -/
inductive Reachable : List Goal → Prop where
  | init : Reachable []
  | createStep (s : List Goal) (freshId userId : String) (d : CreateGoalDto) (now : ℤ) :
      Reachable s → Reachable (createGoal s freshId userId d now)
  | updateStep (s : List Goal) (gid : String) (u : UpdateGoalDto) (now : ℤ) (s2 : List Goal) :
      Reachable s → updateGoalStore s gid u now = some s2 → Reachable s2
  | progressStep (s : List Goal) (gid : String) (u : GoalProgressUpdate) (now : ℤ)
      (s2 : List Goal) :
      Reachable s → updateProgressStore s gid u now = some s2 → Reachable s2
  | deleteStep (s : List Goal) (gid : String) :
      Reachable s → Reachable (deleteGoal s gid)

/-- Scheduler bookkeeping invariant maintained by `startJob`/`stopJob`:
task ids are below the fresh counter and pairwise distinct, and the live tasks
carrying a given job name are exactly the one the map points to (if any). -/
def SchedInv (s : SchedulerState) : Prop :=
  (∀ p ∈ s.runningTasks, p.1 < s.nextTaskId)
  ∧ (s.runningTasks.map Prod.fst).Nodup
  ∧ ∀ name, s.runningTasks.filter (fun p => p.2 == name)
      = (match mapLookup s.scheduledJobs name with
         | some id => [(id, name)]
         | none => [])

/-! ### Concrete fixtures for counterexamples and witnesses -/

/-- A neutral goal record; fixtures override the relevant fields. -/
def baseGoal : Goal :=
  { id := "g1", userId := "u1", type := .custom, title := "goal", description := none
    targetWeight := none, targetBodyFat := none, strengthTarget := none
    frequencyTarget := none, customTarget := none, startValue := none
    currentValue := none, currentProgress := none, startDate := 0, deadline := 100
    completedAt := none, status := .active, createdAt := 0, updatedAt := 0 }

/-- An abandoned goal owned by `u1`. -/
def gAband : Goal := { baseGoal with id := "ga", status := .abandoned }

/-- A weight goal carrying only the mismatched (body-fat) target. -/
def gMismatch : Goal :=
  { baseGoal with
    type := .weight, startValue := some 80,
    targetWeight := none, targetBodyFat := some 20 }

/-- A weight goal with a well-formed target. -/
def gWeight : Goal :=
  { baseGoal with type := .weight, startValue := some 80, targetWeight := some 70 }

/-- A body-metric sample of 75 for user `u1`. -/
def mWeight75 : BodyMetrics :=
  { id := "m1", userId := "u1", date := 10, weight := some 75, bodyFat := none }

/-- The spec's strength target: 225 at 5 reps on exercise `e1`. -/
def stTarget : StrengthGoalTarget := ⟨"e1", "Bench Press", 225, 5⟩

/-- A strength goal against `stTarget`. -/
def gStrength : Goal :=
  { baseGoal with
    id := "gs", type := .strength, strengthTarget := some stTarget }

/-- Personal record exactly meeting `stTarget`. -/
def pr225 : PersonalRecord :=
  { id := "p1", userId := "u1", exerciseId := "e1", exerciseName := some "Bench Press"
    weight := 225, reps := 5, achievedAt := 1, workoutProgressId := none
    createdAt := 1, updatedAt := 1 }

/-- Personal record just below `stTarget` in weight. -/
def pr220 : PersonalRecord := { pr225 with id := "p2", weight := 220 }

/-- The spec's existing record (100 kg, 5 reps), named "Old Name" in store. -/
def prEx100 : PersonalRecord :=
  { id := "p100", userId := "u1", exerciseId := "e1", exerciseName := some "Old Name"
    weight := 100, reps := 5, achievedAt := 10, workoutProgressId := none
    createdAt := 10, updatedAt := 10 }

/-- A frequency goal with `workoutsPerWeek = 4`. -/
def gFreq : Goal :=
  { baseGoal with
    id := "gf", type := .workout_frequency, frequencyTarget := some ⟨some 4, none⟩ }

/-- Three completions for `u1` at time 0 (inside any trailing window ending at 0). -/
def ws3 : List WorkoutProgress := [⟨"w1", "u1", 0⟩, ⟨"w2", "u1", 0⟩, ⟨"w3", "u1", 0⟩]

/-- Two active goals past their deadline (`now = 0`). -/
def gExp1 : Goal := { baseGoal with id := "e1g", deadline := -1 }

/-- See `gExp1`. -/
def gExp2 : Goal := { baseGoal with id := "e2g", deadline := -1 }

/-- A world whose store rejects the update of goal `e1g`. -/
def wExpire : World :=
  { goals := [gExp1, gExp2], bodyMetricsByUser := fun _ => [], prsByUser := fun _ => []
    workouts := [], jobLogs := [], now := 0, failingGoalUpdate := fun id => id == "e1g"
    loadFails := false }

/-- The same world with a store that never rejects. -/
def wExpireOk : World := { wExpire with failingGoalUpdate := fun _ => false }

/-- A world holding only the strength goal, with `pr225` on file for `u1`. -/
def wStrength : World :=
  { goals := [gStrength], bodyMetricsByUser := fun _ => [], prsByUser := fun _ => [pr225]
    workouts := [], jobLogs := [], now := 7, failingGoalUpdate := fun _ => false
    loadFails := false }

/-- An empty world. -/
def wEmpty : World :=
  { goals := [], bodyMetricsByUser := fun _ => [], prsByUser := fun _ => []
    workouts := [], jobLogs := [], now := 0, failingGoalUpdate := fun _ => false
    loadFails := false }

/-- A world holding only the abandoned goal. -/
def wAband : World := { wEmpty with goals := [gAband] }

/-- Creation payload used by the reachable-store counterexample. -/
def dtoPlain : CreateGoalDto :=
  ⟨.custom, "goal", none, none, none, none, none, none, none, 100⟩

/-- Store after creating goal `g1` at time 0. -/
def s0ex : List Goal := createGoal [] "g1" "u1" dtoPlain 0

/-- Store after additionally completing `g1` at time 3. -/
def s1ex : List Goal :=
  (updateGoalStore s0ex "g1" { emptyUpdate with status := some .completed } 3).getD []

/-- Store after additionally abandoning the completed `g1` at time 4. -/
def s2ex : List Goal :=
  (updateGoalStore s1ex "g1" { emptyUpdate with status := some .abandoned } 4).getD []

/-! ## Theorems -/

/-- The boolean supersession test agrees with the spec-level predicate. -/
theorem shouldUpdatePR_eq_true_iff (ex : PersonalRecord) (w r : ℚ) :
    shouldUpdatePR ex w r = true ↔ Supersedes ex w r := by
  simp [shouldUpdatePR, Supersedes, Bool.or_eq_true, Bool.and_eq_true,
    decide_eq_true_iff]

/-- C3: `upsertPersonalRecord` replaces the stored record for a
(user, exercise) pair exactly when the candidate supersedes it — strictly
greater weight, or equal weight with strictly more reps; a fresh record is
inserted when none exists; and a non-superseding candidate leaves the stored
record unchanged, so a second call with the same non-superseding input leaves
the stored record identical. -/
theorem upsert_personal_record_tiebreak
    (ex : PersonalRecord) (uid eid ename : String) (w r : ℚ)
    (wp : Option String) (now : ℤ) (fid : String) :
    ((upsertPersonalRecord (some ex) uid eid ename w r wp now fid).1 ≠ ex
        ↔ Supersedes ex w r)
    ∧ (¬ Supersedes ex w r →
        (upsertPersonalRecord (some ex) uid eid ename w r wp now fid).1 = ex
        ∧ upsertPersonalRecord
            (some (upsertPersonalRecord (some ex) uid eid ename w r wp now fid).1)
            uid eid ename w r wp now fid
            = upsertPersonalRecord (some ex) uid eid ename w r wp now fid)
    ∧ (upsertPersonalRecord none uid eid ename w r wp now fid).1
        = ⟨fid, uid, eid, some ename, w, r, now, wp, now, now⟩ := by
  by_cases hs : Supersedes ex w r
  · have hb : shouldUpdatePR ex w r = true := (shouldUpdatePR_eq_true_iff ex w r).mpr hs
    refine ⟨⟨fun _ => hs, fun _ => ?_⟩, fun hns => absurd hs hns, rfl⟩
    intro heq
    have hw := congrArg PersonalRecord.weight heq
    have hr := congrArg PersonalRecord.reps heq
    simp only [upsertPersonalRecord, hb, if_true] at hw hr
    rcases hs with h1 | ⟨h2, h3⟩
    · exact absurd hw (ne_of_gt h1)
    · exact absurd hr (ne_of_gt h3)
  · have hb : shouldUpdatePR ex w r = false := by
      cases hbv : shouldUpdatePR ex w r
      · rfl
      · exact absurd ((shouldUpdatePR_eq_true_iff ex w r).mp hbv) hs
    refine ⟨⟨fun hne => ?_, fun h => absurd h hs⟩, fun _ => ⟨?_, ?_⟩, rfl⟩
    · exact absurd (by simp [upsertPersonalRecord, hb]) hne
    · simp [upsertPersonalRecord, hb]
    · simp [upsertPersonalRecord, hb]

/-- C3 witness: the spec's example — existing (100 kg, 5 reps), candidate
(95 kg, 10 reps) — does not supersede, and two successive calls leave the
stored record equal to the original. -/
theorem upsert_personal_record_tiebreak_witness :
    ¬ Supersedes prEx100 95 10
    ∧ (upsertPersonalRecord (some prEx100) "u1" "e1" "Bench" 95 10 none 50 "f1").1
        = prEx100
    ∧ upsertPersonalRecord
        (some (upsertPersonalRecord (some prEx100) "u1" "e1" "Bench" 95 10 none 50 "f1").1)
        "u1" "e1" "Bench" 95 10 none 50 "f1"
        = upsertPersonalRecord (some prEx100) "u1" "e1" "Bench" 95 10 none 50 "f1" := by
  have h := upsert_personal_record_tiebreak prEx100 "u1" "e1" "Bench" 95 10 none 50 "f1"
  have hns : ¬ Supersedes prEx100 95 10 := by decide
  exact ⟨hns, (h.2.1 hns).1, (h.2.1 hns).2⟩

/-- C10: when the candidate supersedes, the stored document receives only
`weight`, `reps`, `achievedAt`, `workoutProgressId` and `updatedAt`; its
`exerciseName` and `createdAt` (and identity fields) are untouched, while the
caller's `exerciseName` shows up only in the returned value. -/
theorem upsert_supersede_frame
    (ex : PersonalRecord) (uid eid ename : String) (w r : ℚ)
    (wp : Option String) (now : ℤ) (fid : String)
    (h : Supersedes ex w r) :
    (upsertPersonalRecord (some ex) uid eid ename w r wp now fid).1.exerciseName
        = ex.exerciseName
    ∧ (upsertPersonalRecord (some ex) uid eid ename w r wp now fid).1.createdAt
        = ex.createdAt
    ∧ (upsertPersonalRecord (some ex) uid eid ename w r wp now fid).1.id = ex.id
    ∧ (upsertPersonalRecord (some ex) uid eid ename w r wp now fid).1.userId = ex.userId
    ∧ (upsertPersonalRecord (some ex) uid eid ename w r wp now fid).1.exerciseId
        = ex.exerciseId
    ∧ (upsertPersonalRecord (some ex) uid eid ename w r wp now fid).1.weight = w
    ∧ (upsertPersonalRecord (some ex) uid eid ename w r wp now fid).1.reps = r
    ∧ (upsertPersonalRecord (some ex) uid eid ename w r wp now fid).1.achievedAt = now
    ∧ (upsertPersonalRecord (some ex) uid eid ename w r wp now fid).1.workoutProgressId
        = wp
    ∧ (upsertPersonalRecord (some ex) uid eid ename w r wp now fid).1.updatedAt = now
    ∧ (upsertPersonalRecord (some ex) uid eid ename w r wp now fid).2.exerciseName
        = some ename := by
  have hb : shouldUpdatePR ex w r = true := (shouldUpdatePR_eq_true_iff ex w r).mpr h
  simp [upsertPersonalRecord, hb]

/-- C10 witness: a superseding candidate carrying the name "New Name" leaves
the stored document's name "Old Name" intact; the returned value carries the
caller's name. -/
theorem upsert_supersede_frame_witness :
    Supersedes prEx100 105 3
    ∧ (upsertPersonalRecord (some prEx100) "u1" "e1" "New Name" 105 3 none 50 "f1").1.exerciseName
        = some "Old Name"
    ∧ (upsertPersonalRecord (some prEx100) "u1" "e1" "New Name" 105 3 none 50 "f1").1.createdAt
        = 10
    ∧ (upsertPersonalRecord (some prEx100) "u1" "e1" "New Name" 105 3 none 50 "f1").2.exerciseName
        = some "New Name" := by
  have hsup : Supersedes prEx100 105 3 := by decide
  have h := upsert_supersede_frame prEx100 "u1" "e1" "New Name" 105 3 none 50 "f1" hsup
  exact ⟨hsup, h.1, h.2.1, h.2.2.2.2.2.2.2.2.2.2⟩

/-- The expire-goals unit of work never touches the audit log. -/
theorem expireGoalsExecute_jobLogs (w : World) :
    (expireGoalsExecute w).1.jobLogs = w.jobLogs := by
  unfold expireGoalsExecute
  by_cases h : w.loadFails <;> simp [h]
  split <;> rfl

/-- The progress loop never touches the audit log. -/
theorem progressLoop_jobLogs (failing : String → Bool) (l : List Goal) (w : World) (c : ℕ) :
    (progressLoop failing l w c).1.jobLogs = w.jobLogs := by
  induction l generalizing w c with
  | nil => rfl
  | cons g rest ih =>
    unfold progressLoop
    by_cases hf : failing g.id
    · simp [hf, ih]
    · cases hty : g.type <;> simp [hf, hty, ih]

/-- The update-goal-progress unit of work never touches the audit log. -/
theorem updateGoalProgressExecute_jobLogs (w : World) :
    (updateGoalProgressExecute w).1.jobLogs = w.jobLogs := by
  unfold updateGoalProgressExecute
  by_cases h : w.loadFails <;> simp [h, progressLoop_jobLogs]

/-- C4: `executeJob` is a total function of the job name — it always returns a
`JobResultRec` (it cannot throw in this embedding); the world after the call
carries the audit log of the dispatched unit of work with exactly one new
entry, holding the returned result, appended at the end; the dispatch itself
never appends (it can only delete audit entries, in the cleanup job); and a
name outside the three known jobs yields the unknown-job `failure` result and
leaves the goal store untouched. -/
theorem executeJob_audit (w : World) (name : String) :
    (executeJob w name).1.jobLogs
        = (jobDispatch w name).1.jobLogs ++ [⟨(executeJob w name).2, w.now⟩]
    ∧ ((jobDispatch w name).1.jobLogs).Sublist w.jobLogs
    ∧ (¬ (name = "expire-goals" ∨ name = "update-goal-progress" ∨
          name = "cleanup-old-logs") →
        (executeJob w name).2
            = ⟨name, .failure, 0, "Unknown job: " ++ name, some "Job not found"⟩
        ∧ (executeJob w name).1.goals = w.goals
        ∧ (jobDispatch w name).1.jobLogs = w.jobLogs) := by
  refine ⟨rfl, ?_, ?_⟩
  · by_cases h1 : name = "expire-goals"
    · rw [jobDispatch, if_pos h1, expireGoalsExecute_jobLogs]
    · by_cases h2 : name = "update-goal-progress"
      · rw [jobDispatch, if_neg h1, if_pos h2, updateGoalProgressExecute_jobLogs]
      · by_cases h3 : name = "cleanup-old-logs"
        · rw [jobDispatch, if_neg h1, if_neg h2, if_pos h3]
          unfold cleanupOldLogsExecute
          by_cases h : w.loadFails
          · simp [h]
          · simp only [h, if_false, Bool.false_eq_true]
            exact List.filter_sublist _
        · rw [jobDispatch, if_neg h1, if_neg h2, if_neg h3]
  · intro h
    push_neg at h
    obtain ⟨h1, h2, h3⟩ := h
    refine ⟨?_, ?_, ?_⟩ <;>
      simp [executeJob, jobDispatch, if_neg h1, if_neg h2, if_neg h3]

/-- C4 witness: on an empty world, `executeJob "not-a-real-job"` produces the
unknown-job failure result and the audit log gains exactly that one entry. -/
theorem executeJob_audit_witness :
    ¬ ("not-a-real-job" = "expire-goals" ∨ "not-a-real-job" = "update-goal-progress" ∨
        "not-a-real-job" = "cleanup-old-logs")
    ∧ (executeJob wEmpty "not-a-real-job").2.status = .failure
    ∧ (executeJob wEmpty "not-a-real-job").1.jobLogs
        = [⟨(executeJob wEmpty "not-a-real-job").2, 0⟩] := by
  have hn : ¬ ("not-a-real-job" = "expire-goals" ∨
      "not-a-real-job" = "update-goal-progress" ∨
      "not-a-real-job" = "cleanup-old-logs") := by decide
  have h := executeJob_audit wEmpty "not-a-real-job"
  refine ⟨hn, ?_, ?_⟩
  · rw [(h.2.2 hn).1]
  · rw [h.1, (h.2.2 hn).2.2]
    rfl

/-- Writes through `updateProgress` never change any goal's status. -/
theorem updateProgressStore_status (s : List Goal) (gid : String)
    (u : GoalProgressUpdate) (now : ℤ) :
    ((updateProgressStore s gid u now).getD s).map Goal.status = s.map Goal.status := by
  unfold updateProgressStore
  cases h : findGoal s gid
  · rfl
  · simp only [Option.getD_some, List.map_map]
    refine List.map_congr_left ?_
    intro g _
    by_cases hid : g.id = gid <;> simp [hid, applyProgressUpdate]

/-- C7: for a workout-frequency goal, a 7-day trailing window applies when
`workoutsPerWeek` is set, else a 30-day window when `workoutsPerMonth` is set;
progress is `clamp(0, 100, count / target * 100)` over the user's completions
inside the inclusive window; and the refresh never changes any goal's status
(so a frequency goal is never auto-completed, even at 100). -/
theorem frequency_progress_correct
    (g : Goal) (ws : List WorkoutProgress) (now : ℤ) (ft : FrequencyTarget)
    (hft : g.frequencyTarget = some ft) :
    (∀ t : ℚ, ft.workoutsPerWeek = some t → 0 < t →
      frequencyProgress g ws now
        = some (min 100 (max 0
            (((findWorkoutProgressByUser ws g.userId (now - daysMs 7) now).length : ℚ)
              / t * 100))))
    ∧ (∀ t : ℚ, ft.workoutsPerWeek = none → ft.workoutsPerMonth = some t → 0 < t →
      frequencyProgress g ws now
        = some (min 100 (max 0
            (((findWorkoutProgressByUser ws g.userId (now - daysMs 30) now).length : ℚ)
              / t * 100))))
    ∧ (∀ w : World, g.type = .workout_frequency →
        (progressGoalAction w g).map Goal.status = w.goals.map Goal.status) := by
  refine ⟨?_, ?_, ?_⟩
  · intro t hw hpos
    have hx : (0:ℚ) ≤
        ((findWorkoutProgressByUser ws g.userId (now - daysMs 7) now).length : ℚ)
          / t * 100 :=
      mul_nonneg (div_nonneg (Nat.cast_nonneg _) hpos.le) (by norm_num)
    simp [frequencyProgress, hft, hw, max_eq_right hx]
  · intro t hw hm hpos
    have hx : (0:ℚ) ≤
        ((findWorkoutProgressByUser ws g.userId (now - daysMs 30) now).length : ℚ)
          / t * 100 :=
      mul_nonneg (div_nonneg (Nat.cast_nonneg _) hpos.le) (by norm_num)
    simp [frequencyProgress, hft, hw, hm, max_eq_right hx]
  · intro w hty
    unfold progressGoalAction
    rw [hty]
    cases h : frequencyProgress g w.workouts w.now
    · rfl
    · exact updateProgressStore_status _ _ _ _

/-- C7 witness: the spec's example — `workoutsPerWeek = 4` and exactly three
completions in the trailing 7 days gives progress 75. -/
theorem frequency_progress_correct_witness :
    gFreq.frequencyTarget = some ⟨some 4, none⟩
    ∧ (0:ℚ) < 4
    ∧ frequencyProgress gFreq ws3 0 = some 75 := by
  have h := (frequency_progress_correct gFreq ws3 0 ⟨some 4, none⟩ rfl).1 4 rfl (by norm_num)
  refine ⟨rfl, by norm_num, ?_⟩
  rw [h]
  have hlen : (findWorkoutProgressByUser ws3 gFreq.userId (0 - daysMs 7) 0).length = 3 := rfl
  rw [hlen]
  have h75 : ((3:ℕ):ℚ) / 4 * 100 = 75 := by norm_num
  rw [h75, max_eq_right (by norm_num : (0:ℚ) ≤ 75),
    min_eq_right (by norm_num : (75:ℚ) ≤ 100)]

/-- C2 counterexample: a weight goal that carries only a body-fat target.
The service path's guard (`targetWeight !== undefined || targetBodyFat !==
undefined`) passes, the type-matching target is absent, and a progress update
is still produced — with value NaN — contradicting the claim that progress is
computed only when the type-matching target is present. -/
theorem weight_goal_mismatched_target_counterexample :
    gMismatch.type = .weight
    ∧ gMismatch.targetWeight = none
    ∧ gMismatch.startValue = some 80
    ∧ serviceWeightBodyFat gMismatch [mWeight75] = (some 75, some .nan) := by
  refine ⟨rfl, rfl, rfl, ?_⟩
  decide

/-- C2 amended: the claimed behaviour holds of the background job path
(`UpdateGoalProgressJob.updateWeightOrBodyFatGoal`), which guards on the
type-matching target; the service path agrees with it whenever the
type-matching target is present, and both leave progress unset when
`target = startValue` and write nothing without a body-metric sample.
(The service path additionally fires on a mismatched target — see the
counterexample.) -/
theorem weight_bodyfat_progress_amended
    (g : Goal) (metrics : List BodyMetrics)
    (hty : g.type = .weight ∨ g.type = .body_fat) :
    (metrics = [] →
      updateWeightOrBodyFatGoal g metrics = none
      ∧ serviceWeightBodyFat g metrics = (none, none))
    ∧ (∀ latest rest cv sv t, metrics = latest :: rest →
        (if g.type = .weight then latest.weight else latest.bodyFat) = some cv →
        g.startValue = some sv →
        (if g.type = .weight then g.targetWeight else g.targetBodyFat) = some t →
        t ≠ sv →
        updateWeightOrBodyFatGoal g metrics
          = some ⟨some cv, some (.num (min 100 (max 0 ((cv - sv) / (t - sv) * 100))))⟩
        ∧ serviceWeightBodyFat g metrics
          = (some cv, some (.num (min 100 (max 0 ((cv - sv) / (t - sv) * 100))))))
    ∧ (∀ latest rest cv sv, metrics = latest :: rest →
        (if g.type = .weight then latest.weight else latest.bodyFat) = some cv →
        g.startValue = some sv →
        (if g.type = .weight then g.targetWeight else g.targetBodyFat) = some sv →
        updateWeightOrBodyFatGoal g metrics = none
        ∧ (serviceWeightBodyFat g metrics).2 = none)
    ∧ (∀ latest rest, metrics = latest :: rest →
        (if g.type = .weight then g.targetWeight else g.targetBodyFat) = none →
        updateWeightOrBodyFatGoal g metrics = none) := by
  refine ⟨?_, ?_, ?_, ?_⟩
  · rintro rfl
    exact ⟨rfl, rfl⟩
  · rintro latest rest cv sv t rfl hcv hsv ht hne
    have hts : t - sv ≠ 0 := sub_ne_zero.mpr hne
    rcases hty with h | h <;>
      simp [h] at hcv ht <;>
      constructor <;>
      simp [updateWeightOrBodyFatGoal, serviceWeightBodyFat, h, hcv, hsv, ht, hts,
        toJVal, JVal.sub, JVal.neZero, JVal.div, JVal.mul100, JVal.maxC, JVal.minC]
  · rintro latest rest cv sv rfl hcv hsv ht
    rcases hty with h | h <;>
      simp [h] at hcv ht <;>
      constructor <;>
      simp [updateWeightOrBodyFatGoal, serviceWeightBodyFat, h, hcv, hsv, ht, sub_self,
        toJVal, JVal.sub, JVal.neZero, JVal.div, JVal.mul100, JVal.maxC, JVal.minC]
  · rintro latest rest rfl ht
    rcases hty with h | h
    · simp [h] at ht
      simp only [updateWeightOrBodyFatGoal, h]
      cases latest.weight <;> cases g.startValue <;> simp [ht]
    · simp [h] at ht
      simp only [updateWeightOrBodyFatGoal, h]
      cases latest.bodyFat <;> cases g.startValue <;> simp [ht]

/-- C2 witness: weight goal 80 → 70 with current sample 75 gives progress 50
on both paths. -/
theorem weight_bodyfat_progress_amended_witness :
    gWeight.type = .weight
    ∧ gWeight.startValue = some 80
    ∧ gWeight.targetWeight = some 70
    ∧ (70:ℚ) ≠ 80
    ∧ updateWeightOrBodyFatGoal gWeight [mWeight75] = some ⟨some 75, some (.num 50)⟩
    ∧ serviceWeightBodyFat gWeight [mWeight75] = (some 75, some (.num 50)) := by
  have h := (weight_bodyfat_progress_amended gWeight [mWeight75] (Or.inl rfl)).2.1
    mWeight75 [] 75 80 70 rfl rfl rfl rfl (by norm_num)
  have hval : min 100 (max 0 (((75:ℚ) - 80) / (70 - 80) * 100)) = 50 := by
    norm_num
  refine ⟨rfl, rfl, rfl, by norm_num, ?_, ?_⟩
  · rw [h.1, hval]
  · rw [h.2, hval]

/-- C6 counterexample: in the background-job path, a record meeting the spec's
own example target (225 kg × 5 reps against 225 kg × 5 reps) transitions the
goal to `completed` but does NOT set progress to 100 — the job writes no
progress value at all on completion (the stored `currentProgress` stays
`none`), contradicting the claim that completion detection sets progress
to 100. -/
theorem strength_completion_job_progress_counterexample :
    pr225.weight = 225 ∧ pr225.reps = 5
    ∧ stTarget.targetWeight = 225 ∧ stTarget.targetReps = 5
    ∧ jobStrength gStrength [pr225] = ⟨true, none⟩
    ∧ (progressGoalAction wStrength gStrength).map
        (fun g => (g.status, g.currentProgress))
        = [(.completed, none)] := by
  refine ⟨rfl, rfl, rfl, rfl, by decide, by decide⟩

/-- C6 amended: for a strength goal with a record on file for the target
exercise, meeting both target weight and reps detects completion; the
live-service path then also sets progress 100, while the background-job path
only transitions the status and leaves progress unwritten.  Below the target,
both paths write `clamp(0, 100, weight / targetWeight * 100)` (reps play no
role there), and with no record neither path writes anything. -/
theorem strength_progress_amended
    (g : Goal) (prs : List PersonalRecord) (st : StrengthGoalTarget)
    (hst : g.strengthTarget = some st) (hw : 0 < st.targetWeight) :
    (findPR prs st.exerciseId = none →
      serviceStrength g prs = ⟨false, none⟩ ∧ jobStrength g prs = ⟨false, none⟩)
    ∧ (∀ pr, findPR prs st.exerciseId = some pr →
        ((st.targetWeight ≤ pr.weight ∧ st.targetReps ≤ pr.reps) →
          serviceStrength g prs = ⟨true, some 100⟩ ∧ jobStrength g prs = ⟨true, none⟩)
        ∧ (0 ≤ pr.weight → ¬ (st.targetWeight ≤ pr.weight ∧ st.targetReps ≤ pr.reps) →
            serviceStrength g prs
              = ⟨false, some (min 100 (max 0 (pr.weight / st.targetWeight * 100)))⟩
            ∧ jobStrength g prs = serviceStrength g prs)) := by
  refine ⟨?_, ?_⟩
  · intro hnone
    constructor <;> simp [serviceStrength, jobStrength, hst, hnone]
  · intro pr hpr
    refine ⟨?_, ?_⟩
    · intro hmet
      constructor <;> simp [serviceStrength, jobStrength, hst, hpr, hmet]
    · intro hwnn hnot
      have hx : (0:ℚ) ≤ pr.weight / st.targetWeight * 100 :=
        mul_nonneg (div_nonneg hwnn hw.le) (by norm_num)
      constructor <;>
        simp [serviceStrength, jobStrength, hst, hpr, hnot, max_eq_right hx]

/-- C6 witness: the spec's two examples.  Record (225, 5) against target
(225, 5): completion on both paths, progress 100 on the service path only.
Record (220, 5): no completion, progress 880/9 ≈ 97.78 on both paths. -/
theorem strength_progress_amended_witness :
    gStrength.strengthTarget = some stTarget
    ∧ (0:ℚ) < stTarget.targetWeight
    ∧ serviceStrength gStrength [pr225] = ⟨true, some 100⟩
    ∧ jobStrength gStrength [pr225] = ⟨true, none⟩
    ∧ serviceStrength gStrength [pr220] = ⟨false, some (880/9)⟩
    ∧ jobStrength gStrength [pr220] = ⟨false, some (880/9)⟩ := by
  have hwpos : (0:ℚ) < stTarget.targetWeight := by norm_num [stTarget]
  have h1 := (strength_progress_amended gStrength [pr225] stTarget rfl hwpos).2 pr225 rfl
  have h2 := (strength_progress_amended gStrength [pr220] stTarget rfl hwpos).2 pr220 rfl
  have hmet : stTarget.targetWeight ≤ pr225.weight ∧ stTarget.targetReps ≤ pr225.reps := by
    constructor <;> norm_num [stTarget, pr225]
  have hnot : ¬ (stTarget.targetWeight ≤ pr220.weight ∧ stTarget.targetReps ≤ pr220.reps) := by
    intro hc
    have := hc.1
    norm_num [stTarget, pr220, pr225] at this
  have hwnn : (0:ℚ) ≤ pr220.weight := by norm_num [pr220, pr225]
  have hval : min 100 (max 0 (pr220.weight / stTarget.targetWeight * 100)) = (880:ℚ)/9 := by
    have hq : pr220.weight / stTarget.targetWeight * 100 = (880:ℚ)/9 := by
      norm_num [pr220, pr225, stTarget]
    rw [hq, max_eq_right (by norm_num : (0:ℚ) ≤ 880/9),
      min_eq_right (by norm_num : (880:ℚ)/9 ≤ 100)]
  refine ⟨rfl, hwpos, (h1.1 hmet).1, (h1.1 hmet).2, ?_, ?_⟩
  · rw [(h2.2 hwnn hnot).1, hval]
  · rw [(h2.2 hwnn hnot).2, (h2.2 hwnn hnot).1, hval]

/-- Updates through `GoalRepository.update` preserve the list of document ids. -/
theorem updateGoalStore_ids (s : List Goal) (gid : String) (u : UpdateGoalDto) (now : ℤ)
    (s2 : List Goal) (h : updateGoalStore s gid u now = some s2) :
    idsOf s2 = idsOf s := by
  unfold updateGoalStore at h
  cases hf : findGoal s gid with
  | none => rw [hf] at h; cases h
  | some g0 =>
    rw [hf] at h
    cases h
    unfold idsOf
    rw [List.map_map]
    refine List.map_congr_left ?_
    intro g _
    by_cases hid : g.id = gid <;> simp [Function.comp, hid, applyUpdate]

/-- A lookup by an id that occurs in the store succeeds. -/
theorem findGoal_isSome (s : List Goal) (gid : String) (h : gid ∈ idsOf s) :
    (findGoal s gid).isSome := by
  unfold findGoal
  rw [List.find?_isSome]
  obtain ⟨g, hg, hid⟩ := List.mem_map.mp h
  exact ⟨g, hg, by simp [hid]⟩

/-- An update by an id that occurs in the store succeeds. -/
theorem updateGoalStore_isSome (s : List Goal) (gid : String) (u : UpdateGoalDto)
    (now : ℤ) (h : gid ∈ idsOf s) :
    (updateGoalStore s gid u now).isSome := by
  unfold updateGoalStore
  cases hf : findGoal s gid with
  | none => exact absurd (findGoal_isSome s gid h) (by simp [hf])
  | some g0 => simp

/-- When no goal's update rejects, the expiry sweep completes without abort
and its count is exactly the number of walked goals past their deadline. -/
theorem expireLoop_ok (now : ℤ) (failing : String → Bool) (l : List Goal) :
    ∀ store count,
    (∀ g ∈ l, failing g.id = false) →
    (∀ g ∈ l, g.id ∈ idsOf store) →
    (expireLoop now failing l store count).2.2 = false
    ∧ (expireLoop now failing l store count).2.1
        = count + (l.filter (fun g => decide (g.deadline < now))).length := by
  induction l with
  | nil => intro store count _ _; exact ⟨rfl, by simp [expireLoop]⟩
  | cons g rest ih =>
    intro store count hf hid
    unfold expireLoop
    by_cases hd : g.deadline < now
    · rw [if_pos hd]
      simp only [hf g (List.mem_cons_self g rest), Bool.false_eq_true, if_false]
      have hs := updateGoalStore_isSome store g.id
        { emptyUpdate with status := some .expired } now (hid g (List.mem_cons_self g rest))
      obtain ⟨store2, hstore2⟩ := Option.isSome_iff_exists.mp hs
      rw [hstore2]
      have hids := updateGoalStore_ids store g.id _ now store2 hstore2
      have hrest := ih store2 (count + 1)
        (fun g' hg' => hf g' (List.mem_cons_of_mem g hg'))
        (fun g' hg' => hids ▸ hid g' (List.mem_cons_of_mem g hg'))
      refine ⟨hrest.1, ?_⟩
      rw [hrest.2, List.filter_cons_of_pos (by simp [hd])]
      simp
      omega
    · rw [if_neg hd]
      have hrest := ih store count
        (fun g' hg' => hf g' (List.mem_cons_of_mem g hg'))
        (fun g' hg' => hid g' (List.mem_cons_of_mem g hg'))
      refine ⟨hrest.1, ?_⟩
      rw [hrest.2, List.filter_cons_of_neg (by simp [hd])]

/-- C5 counterexample: two active goals past their deadline; the store rejects
the first goal's update.  The sweep aborts — the second goal is never
examined and stays `active` — and the job reports `failure` with
`itemsProcessed = 0`, contradicting the claim that one failure does not abort
the sweep. -/
theorem expire_sweep_abort_counterexample :
    wExpire.failingGoalUpdate gExp1.id = true
    ∧ gExp2.status = .active ∧ gExp2.deadline < wExpire.now
    ∧ (expireGoalsExecute wExpire).2.status = .failure
    ∧ (expireGoalsExecute wExpire).2.itemsProcessed = 0
    ∧ (expireGoalsExecute wExpire).1.goals = [gExp1, gExp2] := by
  exact ⟨by decide, by decide, by decide, by decide, by decide, by decide⟩

/-- C5 amended: a failure updating one goal ABORTS the sweep (goals after the
failing one are not examined) and the job reports `failure` with
`itemsProcessed = 0`, even if earlier goals were already transitioned; on a
run with no update failure the job reports `success` and `itemsProcessed`
counts exactly the active goals past their deadline. -/
theorem expire_sweep_amended (w : World) (hload : w.loadFails = false) :
    ((∀ g ∈ findAllActiveGoals w.goals, w.failingGoalUpdate g.id = false) →
      (expireGoalsExecute w).2.status = .success
      ∧ (expireGoalsExecute w).2.itemsProcessed
          = ((findAllActiveGoals w.goals).filter
              (fun g => decide (g.deadline < w.now))).length)
    ∧ ((expireGoalsExecute w).2.status = .failure →
        (expireGoalsExecute w).2.itemsProcessed = 0) := by
  have hids : ∀ g ∈ findAllActiveGoals w.goals, g.id ∈ idsOf w.goals := by
    intro g hg
    exact List.mem_map_of_mem Goal.id (List.mem_of_mem_filter hg)
  constructor
  · intro hnf
    have h := expireLoop_ok w.now w.failingGoalUpdate (findAllActiveGoals w.goals)
      w.goals 0 hnf hids
    unfold expireGoalsExecute
    simp only [hload, Bool.false_eq_true, if_false, h.1]
    exact ⟨by simp, by rw [h.2]; omega⟩
  · intro hfail
    unfold expireGoalsExecute at hfail ⊢
    simp only [hload, Bool.false_eq_true, if_false] at hfail ⊢
    by_cases habort :
        (expireLoop w.now w.failingGoalUpdate (findAllActiveGoals w.goals) w.goals 0).2.2
    · simp only [habort, if_true]
    · simp only [habort, Bool.false_eq_true, if_false] at hfail
      cases hfail

/-- C5 witness: the same two-goal world with a store that never rejects —
the sweep succeeds and reports exactly 2 goals transitioned. -/
theorem expire_sweep_amended_witness :
    wExpireOk.loadFails = false
    ∧ (∀ g ∈ findAllActiveGoals wExpireOk.goals, wExpireOk.failingGoalUpdate g.id = false)
    ∧ (expireGoalsExecute wExpireOk).2.status = .success
    ∧ (expireGoalsExecute wExpireOk).2.itemsProcessed = 2 := by
  have hnf : ∀ g ∈ findAllActiveGoals wExpireOk.goals,
      wExpireOk.failingGoalUpdate g.id = false := by decide
  have h := (expire_sweep_amended wExpireOk rfl).1 hnf
  exact ⟨rfl, hnf, h.1, by rw [h.2]; decide⟩

/-- A goal whose id is not the update's target is carried unchanged into the
updated store. -/
theorem mem_updateGoalStore_of_ne (s : List Goal) (gid : String) (u : UpdateGoalDto)
    (now : ℤ) (s2 : List Goal) (g : Goal)
    (h : updateGoalStore s gid u now = some s2) (hg : g ∈ s) (hne : g.id ≠ gid) :
    g ∈ s2 := by
  unfold updateGoalStore at h
  cases hf : findGoal s gid with
  | none => rw [hf] at h; cases h
  | some g0 =>
    rw [hf] at h
    cases h
    exact List.mem_map.mpr ⟨g, hg, by simp [hne]⟩

/-- The `getD` form of `mem_updateGoalStore_of_ne`. -/
theorem mem_updateGoalStore_getD (s : List Goal) (gid : String) (u : UpdateGoalDto)
    (now : ℤ) (g : Goal) (hg : g ∈ s) (hne : g.id ≠ gid) :
    g ∈ (updateGoalStore s gid u now).getD s := by
  cases h : updateGoalStore s gid u now with
  | none => simpa using hg
  | some s2 => simpa using mem_updateGoalStore_of_ne s gid u now s2 g h hg hne

/-- Same for `updateProgress` writes. -/
theorem mem_updateProgressStore_getD (s : List Goal) (gid : String)
    (u : GoalProgressUpdate) (now : ℤ) (g : Goal) (hg : g ∈ s) (hne : g.id ≠ gid) :
    g ∈ (updateProgressStore s gid u now).getD s := by
  unfold updateProgressStore
  cases hf : findGoal s gid with
  | none => simpa using hg
  | some g0 =>
    simp only [Option.getD_some]
    exact List.mem_map.mpr ⟨g, hg, by simp [hne]⟩

/-- The expiry walk never loses a goal whose id differs from every walked
goal's id. -/
theorem mem_expireLoop (now : ℤ) (failing : String → Bool) (l : List Goal) :
    ∀ store count (g : Goal), g ∈ store → (∀ a ∈ l, a.id ≠ g.id) →
      g ∈ (expireLoop now failing l store count).1 := by
  induction l with
  | nil => intro store count g hg _; exact hg
  | cons a rest ih =>
    intro store count g hg hne
    unfold expireLoop
    by_cases hd : a.deadline < now
    · rw [if_pos hd]
      by_cases hfa : failing a.id
      · simp only [hfa, if_true]; exact hg
      · simp only [hfa, Bool.false_eq_true, if_false]
        cases hupd : updateGoalStore store a.id
            { emptyUpdate with status := some .expired } now with
        | none => exact hg
        | some store2 =>
          exact ih store2 (count + 1) g
            (mem_updateGoalStore_of_ne store a.id _ now store2 g hupd hg
              (fun he => hne a (List.mem_cons_self a rest) he.symm))
            (fun a' ha' => hne a' (List.mem_cons_of_mem a ha'))
    · rw [if_neg hd]
      exact ih store count g hg (fun a' ha' => hne a' (List.mem_cons_of_mem a ha'))

/-- One progress-job unit of work only ever writes to its own goal's id. -/
theorem mem_progressGoalAction (w : World) (g' g : Goal)
    (hg : g ∈ w.goals) (hne : g.id ≠ g'.id) :
    g ∈ progressGoalAction w g' := by
  unfold progressGoalAction
  cases hty : g'.type
  case weight =>
    cases updateWeightOrBodyFatGoal g' (w.bodyMetricsByUser g'.userId)
    · exact hg
    · exact mem_updateProgressStore_getD _ _ _ _ g hg hne
  case body_fat =>
    cases updateWeightOrBodyFatGoal g' (w.bodyMetricsByUser g'.userId)
    · exact hg
    · exact mem_updateProgressStore_getD _ _ _ _ g hg hne
  case strength =>
    by_cases hc : (jobStrength g' (w.prsByUser g'.userId)).setCompleted
    · simp only [hc, if_true]
      exact mem_updateGoalStore_getD _ _ _ _ g hg hne
    · simp only [hc, Bool.false_eq_true, if_false]
      cases (jobStrength g' (w.prsByUser g'.userId)).currentProgress
      · exact hg
      · exact mem_updateProgressStore_getD _ _ _ _ g hg hne
  case workout_frequency =>
    cases frequencyProgress g' w.workouts w.now
    · exact hg
    · exact mem_updateProgressStore_getD _ _ _ _ g hg hne
  case custom => exact hg

/-- The progress loop never loses a goal whose id differs from every walked
goal's id. -/
theorem mem_progressLoop (failing : String → Bool) (l : List Goal) :
    ∀ (w : World) count (g : Goal), g ∈ w.goals → (∀ a ∈ l, a.id ≠ g.id) →
      g ∈ (progressLoop failing l w count).1.goals := by
  induction l with
  | nil => intro w count g hg _; exact hg
  | cons a rest ih =>
    intro w count g hg hne
    unfold progressLoop
    by_cases hfa : failing a.id
    · simp only [hfa, if_true]
      exact ih w count g hg (fun a' ha' => hne a' (List.mem_cons_of_mem a ha'))
    · simp only [hfa, Bool.false_eq_true, if_false]
      have hmem : g ∈ progressGoalAction w a :=
        mem_progressGoalAction w a g hg
          (fun he => hne a (List.mem_cons_self a rest) he.symm)
      cases hty : a.type <;>
        first
        | exact ih w count g hg (fun a' ha' => hne a' (List.mem_cons_of_mem a ha'))
        | exact ih _ (count + 1) g hmem (fun a' ha' => hne a' (List.mem_cons_of_mem a ha'))

/-- Active goals have ids distinct from a non-active goal's id, given
duplicate-free document ids. -/
theorem active_id_ne (s : List Goal) (hnodup : (idsOf s).Nodup) (g : Goal)
    (hg : g ∈ s) (hst : g.status ≠ .active) :
    ∀ a ∈ findAllActiveGoals s, a.id ≠ g.id := by
  intro a ha he
  have has : a ∈ s := List.mem_of_mem_filter ha
  have hact : a.status = .active := by
    have := List.of_mem_filter ha
    simpa using this
  have : a = g := List.inj_on_of_nodup_map hnodup has hg he
  rw [this] at hact
  exact hst hact

/-- C1 counterexample: `completeGoal` on an abandoned goal succeeds and moves
it to `completed` (setting `completedAt`) — a transition out of a terminal
state, contradicting the claim that no operation changes a terminal status. -/
theorem terminal_status_counterexample :
    gAband.status = .abandoned
    ∧ completeGoal [gAband] "ga" "u1" 5
        = .ok [{ gAband with status := .completed, completedAt := some 5, updatedAt := 5 }] := by
  exact ⟨rfl, rfl⟩

/-- C1 amended: the repository changes a goal's status only when the patch
carries one, and the two bulk jobs (expiry sweep and progress refresh) leave
every non-active goal untouched (they load only active goals); but the
owner-initiated operations apply the requested status unconditionally —
`completeGoal`-style patches turn ANY non-completed status, terminal or not,
into `completed` — so terminal states are not actually terminal. -/
theorem terminal_status_amended :
    (∀ (g : Goal) (u : UpdateGoalDto) (now : ℤ), u.status = none →
      (applyUpdate g u now).status = g.status)
    ∧ (∀ w : World, (idsOf w.goals).Nodup →
        ∀ g ∈ w.goals, g.status ≠ .active →
          g ∈ (expireGoalsExecute w).1.goals
          ∧ g ∈ (updateGoalProgressExecute w).1.goals)
    ∧ (∀ (g : Goal) (now : ℤ),
        (applyUpdate g { emptyUpdate with status := some .completed } now).status
          = .completed) := by
  refine ⟨?_, ?_, ?_⟩
  · intro g u now h
    simp [applyUpdate, h]
  · intro w hnodup g hg hst
    have hne := active_id_ne w.goals hnodup g hg hst
    constructor
    · unfold expireGoalsExecute
      by_cases hl : w.loadFails
      · simpa [hl] using hg
      · simp only [hl, Bool.false_eq_true, if_false]
        have := mem_expireLoop w.now w.failingGoalUpdate (findAllActiveGoals w.goals)
          w.goals 0 g hg hne
        by_cases habort :
            (expireLoop w.now w.failingGoalUpdate (findAllActiveGoals w.goals) w.goals 0).2.2 <;>
          simpa [habort] using this
    · unfold updateGoalProgressExecute
      by_cases hl : w.loadFails
      · simpa [hl] using hg
      · simp only [hl, Bool.false_eq_true, if_false]
        exact mem_progressLoop w.failingGoalUpdate (findAllActiveGoals w.goals) w 0 g hg hne
  · intro g now
    simp [applyUpdate]

/-- C1 amended witness: instantiated on the one-goal abandoned world. -/
theorem terminal_status_amended_witness :
    (applyUpdate baseGoal emptyUpdate 0).status = baseGoal.status
    ∧ (idsOf wAband.goals).Nodup
    ∧ gAband ∈ wAband.goals
    ∧ gAband.status ≠ .active
    ∧ gAband ∈ (expireGoalsExecute wAband).1.goals
    ∧ gAband ∈ (updateGoalProgressExecute wAband).1.goals
    ∧ (applyUpdate gAband { emptyUpdate with status := some .completed } 5).status
        = .completed := by
  have h := terminal_status_amended
  have hnodup : (idsOf wAband.goals).Nodup := by decide
  have hmem : gAband ∈ wAband.goals := by decide
  have hst : gAband.status ≠ GoalStatus.active := by decide
  have h2 := h.2.1 wAband hnodup gAband hmem hst
  exact ⟨h.1 baseGoal emptyUpdate 0 rfl, hnodup, hmem, hst, h2.1, h2.2,
    h.2.2 gAband 5⟩

/-- One repository update preserves the invariant "completed goals carry a
`completedAt`". -/
theorem applyUpdate_completedAt_inv (g : Goal) (u : UpdateGoalDto) (now : ℤ)
    (ih : g.status = .completed → g.completedAt.isSome) :
    (applyUpdate g u now).status = .completed →
      (applyUpdate g u now).completedAt.isSome := by
  intro h
  cases hu : u.status with
  | none =>
    simp only [applyUpdate, hu, Option.getD_none] at h ⊢
    simp only [false_and, if_false, reduceCtorEq]
    exact ih h
  | some st =>
    cases st with
    | active => simp [applyUpdate, hu] at h
    | completed =>
      by_cases hg : g.status = .completed
      · simp only [applyUpdate, hu] at h ⊢
        simp only [hg, ne_eq, not_true_eq_false, and_false, if_false]
        exact ih hg
      · simp [applyUpdate, hu, hg]
    | abandoned => simp [applyUpdate, hu] at h
    | expired => simp [applyUpdate, hu] at h

/-- Over every reachable store, a goal has `status = completed` only with
`completedAt` set. -/
theorem reachable_completedAt (s : List Goal) (hr : Reachable s) :
    ∀ g ∈ s, g.status = .completed → g.completedAt.isSome := by
  induction hr with
  | init => intro g hg; cases hg
  | createStep s fid uid d now _ ih =>
    intro g hg hc
    unfold createGoal at hg
    rcases List.mem_append.mp hg with h | h
    · exact ih g h hc
    · simp only [List.mem_singleton] at h
      rw [h] at hc
      cases hc
  | updateStep s gid u now s2 _ hupd ih =>
    intro g hg hc
    unfold updateGoalStore at hupd
    cases hf : findGoal s gid with
    | none => rw [hf] at hupd; cases hupd
    | some g0 =>
      rw [hf] at hupd
      cases hupd
      obtain ⟨g1, hg1, hfe⟩ := List.mem_map.mp hg
      by_cases hid : g1.id == gid
      · rw [if_pos hid] at hfe
        rw [← hfe] at hc ⊢
        exact applyUpdate_completedAt_inv g1 u now (ih g1 hg1) hc
      · rw [if_neg hid] at hfe
        rw [← hfe] at hc ⊢
        exact ih g1 hg1 hc
  | progressStep s gid u now s2 _ hupd ih =>
    intro g hg hc
    unfold updateProgressStore at hupd
    cases hf : findGoal s gid with
    | none => rw [hf] at hupd; cases hupd
    | some g0 =>
      rw [hf] at hupd
      cases hupd
      obtain ⟨g1, hg1, hfe⟩ := List.mem_map.mp hg
      by_cases hid : g1.id == gid
      · rw [if_pos hid] at hfe
        rw [← hfe] at hc ⊢
        exact ih g1 hg1 hc
      · rw [if_neg hid] at hfe
        rw [← hfe] at hc ⊢
        exact ih g1 hg1 hc
  | deleteStep s gid _ ih =>
    intro g hg hc
    exact ih g (List.mem_of_mem_filter hg) hc

/-- C8 counterexample: a reachable store violating "completedAt is set iff
status = completed".  Create a goal, complete it at time 3, then abandon it
at time 4: the stored goal has `status = abandoned` yet keeps
`completedAt = some 3`. -/
theorem completedAt_iff_counterexample :
    Reachable s2ex
    ∧ s2ex.map (fun g => (g.status, g.completedAt)) = [(.abandoned, some 3)] := by
  have h0 : Reachable s0ex := Reachable.createStep [] "g1" "u1" dtoPlain 0 Reachable.init
  have h1 : Reachable s1ex :=
    Reachable.updateStep s0ex "g1" { emptyUpdate with status := some .completed } 3 s1ex
      h0 (by decide)
  have h2 : Reachable s2ex :=
    Reachable.updateStep s1ex "g1" { emptyUpdate with status := some .abandoned } 4 s2ex
      h1 (by decide)
  exact ⟨h2, by decide⟩

/-- C8 amended: `completedAt` is written exactly at the transition into
`completed` and never overwritten afterwards (re-requesting completion, or any
other patch, preserves it); over reachable stores `status = completed` implies
`completedAt` is set — but the converse direction of the claimed iff fails,
because a completed goal can be patched to another status while keeping its
`completedAt` (see the counterexample). -/
theorem completedAt_amended :
    (∀ (g : Goal) (u : UpdateGoalDto) (now : ℤ), g.status = .completed →
      (applyUpdate g u now).completedAt = g.completedAt)
    ∧ (∀ (g : Goal) (u : UpdateGoalDto) (now : ℤ), g.status ≠ .completed →
        u.status = some .completed →
        (applyUpdate g u now).completedAt = some now)
    ∧ (∀ s, Reachable s → ∀ g ∈ s, g.status = .completed → g.completedAt.isSome) := by
  refine ⟨?_, ?_, reachable_completedAt⟩
  · intro g u now hc
    simp [applyUpdate, hc]
  · intro g u now hc hu
    simp [applyUpdate, hc, hu]

/-- C8 amended witness: completing the freshly created goal at time 3 stamps
`completedAt = 3`; re-completing at time 9 preserves it; the reachable store
`s1ex` satisfies the forward invariant. -/
theorem completedAt_amended_witness :
    ((baseGoal.status = GoalStatus.completed → False)
      ∧ (applyUpdate baseGoal { emptyUpdate with status := some .completed } 3).completedAt
          = some 3)
    ∧ (∀ g ∈ s1ex, g.status = .completed → g.completedAt.isSome)
    ∧ (applyUpdate { baseGoal with status := .completed, completedAt := some 3 }
        { emptyUpdate with status := some .completed } 9).completedAt = some 3 := by
  have h := completedAt_amended
  have hr1 : Reachable s1ex :=
    Reachable.updateStep s0ex "g1" { emptyUpdate with status := some .completed } 3 s1ex
      (Reachable.createStep [] "g1" "u1" dtoPlain 0 Reachable.init) (by decide)
  refine ⟨⟨by decide, ?_⟩, h.2.2 s1ex hr1, ?_⟩
  · exact h.2.1 baseGoal _ 3 (by decide) rfl
  · exact h.1 _ _ 9 rfl

/-- Evaluation of `Map.get` on a cons cell. -/
theorem mapLookup_cons (a : String) (b : ℕ) (rest : List (String × ℕ)) (k : String) :
    mapLookup ((a, b) :: rest) k = if a = k then some b else mapLookup rest k := by
  by_cases h : a = k
  · simp [mapLookup, List.find?_cons_of_pos, h]
  · simp only [h, if_false]
    unfold mapLookup
    rw [List.find?_cons_of_neg]
    simp [h]

/-- Evaluation of `Map.set` on a cons cell. -/
theorem mapSet_cons (a : String) (b : ℕ) (rest : List (String × ℕ)) (k : String) (v : ℕ) :
    mapSet ((a, b) :: rest) k v
      = if a = k then (k, v) :: rest else (a, b) :: mapSet rest k v := by
  by_cases h : a = k <;> simp [mapSet, h]

/-- Evaluation of `Map.delete` on a cons cell. -/
theorem mapDelete_cons (a : String) (b : ℕ) (rest : List (String × ℕ)) (k : String) :
    mapDelete ((a, b) :: rest) k
      = if a = k then mapDelete rest k else (a, b) :: mapDelete rest k := by
  by_cases h : a = k <;> simp [mapDelete, List.filter_cons, h]

/-- Reading back the key just written by `Map.set`. -/
theorem mapLookup_mapSet_self (m : List (String × ℕ)) (k : String) (v : ℕ) :
    mapLookup (mapSet m k v) k = some v := by
  induction m with
  | nil => simp [mapSet, mapLookup_cons]
  | cons p rest ih =>
    obtain ⟨a, b⟩ := p
    by_cases h : a = k
    · rw [mapSet_cons, if_pos h, mapLookup_cons, if_pos rfl]
    · rw [mapSet_cons, if_neg h, mapLookup_cons, if_neg h]
      exact ih

/-- Writing one key with `Map.set` leaves other keys alone. -/
theorem mapLookup_mapSet_ne (m : List (String × ℕ)) (k k2 : String) (v : ℕ)
    (h : k2 ≠ k) : mapLookup (mapSet m k v) k2 = mapLookup m k2 := by
  induction m with
  | nil => simp [mapSet, mapLookup_cons, Ne.symm h, mapLookup]
  | cons p rest ih =>
    obtain ⟨a, b⟩ := p
    by_cases ha : a = k
    · rw [mapSet_cons, if_pos ha, mapLookup_cons, if_neg (Ne.symm h), mapLookup_cons,
        if_neg (fun he : a = k2 => h (he.symm.trans ha))]
    · rw [mapSet_cons, if_neg ha, mapLookup_cons, mapLookup_cons]
      by_cases hb : a = k2 <;> simp [hb, ih]

/-- Reading a key just removed by `Map.delete` yields nothing. -/
theorem mapLookup_mapDelete_self (m : List (String × ℕ)) (k : String) :
    mapLookup (mapDelete m k) k = none := by
  induction m with
  | nil => rfl
  | cons p rest ih =>
    obtain ⟨a, b⟩ := p
    by_cases h : a = k
    · rw [mapDelete_cons, if_pos h]; exact ih
    · rw [mapDelete_cons, if_neg h, mapLookup_cons, if_neg h]; exact ih

/-- Removing one key with `Map.delete` leaves other keys alone. -/
theorem mapLookup_mapDelete_ne (m : List (String × ℕ)) (k k2 : String)
    (h : k2 ≠ k) : mapLookup (mapDelete m k) k2 = mapLookup m k2 := by
  induction m with
  | nil => rfl
  | cons p rest ih =>
    obtain ⟨a, b⟩ := p
    by_cases ha : a = k
    · rw [mapDelete_cons, if_pos ha, ih, mapLookup_cons,
        if_neg (fun he : a = k2 => h (he.symm.trans ha))]
    · rw [mapDelete_cons, if_neg ha, mapLookup_cons, mapLookup_cons]
      by_cases hb : a = k2 <;> simp [hb, ih]

/-- Two filters on a list commute. -/
theorem filter_comm_pair (l : List (ℕ × String)) (p q : ℕ × String → Bool) :
    (l.filter p).filter q = (l.filter q).filter p := by
  simp only [List.filter_filter]
  exact List.filter_congr (fun a _ => Bool.and_comm (q a) (p a))

/-- The fresh scheduler satisfies the bookkeeping invariant. -/
theorem schedInv_init : SchedInv schedInit := by
  refine ⟨?_, ?_, ?_⟩
  · intro p hp; cases hp
  · exact List.nodup_nil
  · intro name; rfl

/-- Calling `scheduleJob` on a not-yet-mapped name preserves the invariant. -/
theorem schedInv_scheduleJob (s : SchedulerState) (c : JobConfig) (h : SchedInv s)
    (hnone : mapLookup s.scheduledJobs c.name = none) :
    SchedInv (scheduleJob s c) := by
  obtain ⟨hbound, hnodup, hcorr⟩ := h
  refine ⟨?_, ?_, ?_⟩
  · intro p hp
    simp only [scheduleJob] at hp
    rcases List.mem_append.mp hp with hmem | hmem
    · exact Nat.lt_succ_of_lt (hbound p hmem)
    · simp only [List.mem_singleton] at hmem
      rw [hmem]
      exact Nat.lt_succ_self _
  · simp only [scheduleJob, List.map_append, List.map_cons, List.map_nil]
    rw [List.nodup_append]
    refine ⟨hnodup, List.nodup_singleton _, ?_⟩
    intro a ha hb
    simp only [List.mem_singleton] at hb
    obtain ⟨p, hp, hpa⟩ := List.mem_map.mp ha
    have := hbound p hp
    omega
  · intro name
    simp only [scheduleJob, List.filter_append]
    by_cases hn : name = c.name
    · subst hn
      have h1 : s.runningTasks.filter (fun p => p.2 == c.name) = [] := by
        rw [hcorr c.name, hnone]
      rw [h1, mapLookup_mapSet_self]
      simp
    · have h1 : ([(s.nextTaskId, c.name)].filter (fun p => p.2 == name)) = [] := by
        simp [Ne.symm hn]
      rw [h1, List.append_nil, hcorr name, mapLookup_mapSet_ne _ _ _ _ hn]

/-- Calling `startJob` preserves the invariant. -/
theorem schedInv_startJob (s : SchedulerState) (name : String) (h : SchedInv s) :
    SchedInv (startJob s name).1 := by
  unfold startJob
  cases hf : jobConfigs.find? (fun c => c.name == name) with
  | none => exact h
  | some c =>
    by_cases hm : (mapLookup s.scheduledJobs name).isSome
    · simp only [hm, if_true]; exact h
    · simp only [hm, Bool.false_eq_true, if_false]
      have hcn : c.name = name := by
        have := List.find?_some hf
        simpa using this
      refine schedInv_scheduleJob s c h ?_
      rw [hcn]
      exact Option.not_isSome_iff_eq_none.mp hm

/-- Calling `stopJob` preserves the invariant. -/
theorem schedInv_stopJob (s : SchedulerState) (name : String) (h : SchedInv s) :
    SchedInv (stopJob s name).1 := by
  obtain ⟨hbound, hnodup, hcorr⟩ := h
  unfold stopJob
  cases hf : mapLookup s.scheduledJobs name with
  | none => exact ⟨hbound, hnodup, hcorr⟩
  | some id =>
    refine ⟨?_, ?_, ?_⟩
    · intro p hp
      exact hbound p (List.mem_of_mem_filter hp)
    · exact List.Nodup.sublist (List.Sublist.map _ (List.filter_sublist _)) hnodup
    · intro name2
      simp only
      rw [filter_comm_pair]
      by_cases hn : name2 = name
      · subst hn
        rw [hcorr name2, hf, mapLookup_mapDelete_self]
        simp
      · rw [hcorr name2, mapLookup_mapDelete_ne _ _ _ hn]
        cases hm : mapLookup s.scheduledJobs name2 with
        | none => rfl
        | some id2 =>
          have hid2 : (id2, name2) ∈ s.runningTasks := by
            have : (id2, name2) ∈ s.runningTasks.filter (fun p => p.2 == name2) := by
              rw [hcorr name2, hm]; exact List.mem_singleton.mpr rfl
            exact List.mem_of_mem_filter this
          have hid : (id, name) ∈ s.runningTasks := by
            have : (id, name) ∈ s.runningTasks.filter (fun p => p.2 == name) := by
              rw [hcorr name, hf]; exact List.mem_singleton.mpr rfl
            exact List.mem_of_mem_filter this
          have hne : id2 ≠ id := by
            intro he
            subst he
            have h1 := List.inj_on_of_nodup_map hnodup hid2 hid rfl
            cases h1
            exact hn rfl
          simp [hne]

/-- The invariant is preserved by any `startJob`/`stopJob` sequence. -/
theorem schedInv_applySchedOps (ops : List SchedOp) :
    ∀ s, SchedInv s → SchedInv (applySchedOps s ops) := by
  induction ops with
  | nil => intro s h; exact h
  | cons op rest ih =>
    intro s h
    cases op with
    | startOne n => exact ih _ (schedInv_startJob s n h)
    | stopOne n => exact ih _ (schedInv_stopJob s n h)

/-- Under the invariant, at most one live trigger exists per name. -/
theorem liveTriggerCount_le_one (s : SchedulerState) (h : SchedInv s) (name : String) :
    liveTriggerCount s name ≤ 1 := by
  unfold liveTriggerCount
  rw [h.2.2 name]
  cases mapLookup s.scheduledJobs name <;> simp

/-- C9 counterexample: calling `startAll` twice leaves TWO live recurring
triggers for `expire-goals` — `startAll` schedules unconditionally and
`Map.set` silently orphans the previous (still firing) cron task —
contradicting the claim that at most one trigger exists per job name after
any `startAll`/`startJob`/`stopJob` sequence. -/
theorem scheduler_double_trigger_counterexample :
    liveTriggerCount (startAll (startAll schedInit)) "expire-goals" = 2 := by
  decide

/-- C9 amended: over sequences of `startJob`/`stopJob` alone, at most one live
trigger exists per name, `startJob` returns `false` and changes nothing when
the name is unknown or already mapped, and `stopJob` returns `false` and
changes nothing when the name is unmapped; `startAll`, however, schedules
unconditionally, so repeating it double-schedules (see the counterexample). -/
theorem scheduler_amended :
    (∀ ops : List SchedOp, ∀ name,
      liveTriggerCount (applySchedOps schedInit ops) name ≤ 1)
    ∧ (∀ (s : SchedulerState) (name : String),
        (jobConfigs.find? (fun c => c.name == name) = none ∨
          (mapLookup s.scheduledJobs name).isSome) →
        startJob s name = (s, false))
    ∧ (∀ (s : SchedulerState) (name : String),
        mapLookup s.scheduledJobs name = none → stopJob s name = (s, false)) := by
  refine ⟨?_, ?_, ?_⟩
  · intro ops name
    exact liveTriggerCount_le_one _ (schedInv_applySchedOps ops schedInit schedInv_init) name
  · intro s name h
    unfold startJob
    cases hf : jobConfigs.find? (fun c => c.name == name) with
    | none => rfl
    | some c =>
      rcases h with h | h
      · rw [hf] at h; cases h
      · simp only [h, if_true]
  · intro s name h
    unfold stopJob
    rw [h]

/-- C9 amended witness: a concrete start/start/stop sequence keeps at most one
live trigger; `startJob` on an already-scheduled job and `stopJob` on a fresh
scheduler both return `false`. -/
theorem scheduler_amended_witness :
    liveTriggerCount
        (applySchedOps schedInit
          [SchedOp.startOne "expire-goals", SchedOp.startOne "expire-goals",
           SchedOp.stopOne "cleanup-old-logs"]) "expire-goals" ≤ 1
    ∧ startJob (applySchedOps schedInit [SchedOp.startOne "expire-goals"]) "expire-goals"
        = (applySchedOps schedInit [SchedOp.startOne "expire-goals"], false)
    ∧ stopJob schedInit "expire-goals" = (schedInit, false) := by
  have h := scheduler_amended
  refine ⟨h.1 _ "expire-goals", h.2.1 _ _ (Or.inr (by decide)), h.2.2 _ _ (by decide)⟩

end FitTrack
